import Mathlib

/-!
The dnsmasq input plugin (plugins/inputs/dnsmasq/dnsmasq.go).

A shallow embedding of the plugin's parsing and collection code, and the
properties of it that the specification states.

Modelling conventions.

* Go strings are Lean strings (sequences of Unicode characters); byte strings
  that are not valid UTF-8 are outside the model.
* float64 values are an abstract type `F`: the plugin parses them and stores
  them, and never computes with them.  `strconv.ParseFloat(.,64)` is a
  parameter `pf : String → Except E F`.
* Error values made outside the package (by `os`, the DNS client, `strconv`)
  are an abstract type `E`.
* A Go map is a function from keys to optional values; the map a function
  mutates in place is returned next to the function's error.
* The DNS client, `os.Hostname`, `dns.Id` and the accumulator are functions of
  an explicit world state `σ`; a cycle returns the trace of its calls.
* Replies, records and maps are values: nil pointers and nil maps are outside
  the model (the DNS client returns a reply whenever it returns no error).
-/

set_option autoImplicit false
set_option linter.unusedVariables false

namespace strings

/-- White space as `unicode.IsSpace` defines it: the Latin-1 spaces
`\t \n \v \f \r`, space, U+0085, U+00A0, and the code points of category Z
and property Pattern_White_Space. -/
def isSpace (c : Char) : Bool :=
  let n := c.toNat
  (9 ≤ n && n ≤ 13) || n == 32 || n == 0x85 || n == 0xA0 || n == 0x1680 ||
  (0x2000 ≤ n && n ≤ 0x200A) || n == 0x2028 || n == 0x2029 || n == 0x202F ||
  n == 0x205F || n == 0x3000

/-- The scan of `strings.Fields`: `cur` is the field being read (reversed),
empty when the scan is between fields. -/
def fieldsGo : List Char → List Char → List String
  | [], [] => []
  | [], cur => [String.mk cur.reverse]
  | c :: cs, cur =>
    if isSpace c then
      match cur with
      | [] => fieldsGo cs []
      | _ :: _ => String.mk cur.reverse :: fieldsGo cs []
    else fieldsGo cs (c :: cur)

/-- The function `strings.Fields(s)`: the maximal runs of non-space characters
of `s`, in order; the empty list when `s` is empty or all white space. -/
def Fields (s : String) : List String :=
  fieldsGo s.data []

/-- The scan of `strings.Split` for a one-character separator: `cur` is the
piece being read (reversed). -/
def splitGo (sep : Char) : List Char → List Char → List String
  | [], cur => [String.mk cur.reverse]
  | c :: cs, cur =>
    if c = sep then String.mk cur.reverse :: splitGo sep cs []
    else splitGo sep cs (c :: cur)

/-- The function `strings.Split(s, sep)` for a separator of one character
(the plugin only ever passes `"."`): the pieces of `s` between the
occurrences of `sep`; always at least one piece. -/
def Split (s : String) (sep : Char) : List String :=
  splitGo sep s.data []

end strings

namespace dns

/-- The constant `dns.TypeTXT` of the DNS library. -/
def TypeTXT : Nat := 16

/-- The constant `dns.ClassCHAOS` of the DNS library. -/
def ClassCHAOS : Nat := 3

/-- The part of `dns.RR_Header` the plugin reads: the owner name. -/
structure RR_Header where
  Name : String
deriving DecidableEq, Repr

/-- A resource record (`dns.RR`): either a `*dns.TXT` with its header and its
text values, or a record of any other dynamic type. -/
inductive RR where
  | TXT (Hdr : RR_Header) (Txt : List String)
  | other (Hdr : RR_Header)
deriving DecidableEq, Repr

/-- The record type `dns.Question`. -/
structure Question where
  Name : String
  Qtype : Nat
  Qclass : Nat
deriving DecidableEq, Repr

/-- The part of `dns.MsgHdr` the plugin sets; every other flag keeps its zero
value. -/
structure MsgHdr where
  Id : Nat
  RecursionDesired : Bool
deriving DecidableEq, Repr

/-- The part of `dns.Msg` the plugin builds and reads. -/
structure Msg where
  MsgHdr : MsgHdr
  Question : List Question
  Answer : List RR
deriving DecidableEq, Repr

end dns

namespace dnsmasq

/-- A Go map with string keys. -/
abbrev GoMap (V : Type) := String → Option V

/-- The empty map, `make(map[string]V)` or an empty map literal. -/
def GoMap.empty {V : Type} : GoMap V := fun _ => none

/-- The assignment `m[k] = v`. -/
def GoMap.set {V : Type} (m : GoMap V) (k : String) (v : V) : GoMap V :=
  fun k' => if k' = k then some v else m k'

/-- A value of type `interface{}` held by the field map: a float64, or a
value of some other dynamic type (the plugin itself stores only float64). -/
inductive Value (F : Type) where
  | float64 (x : F)
  | other (desc : String)
deriving DecidableEq, Repr

/-- The field map `map[string]interface{}`. -/
abbrev FieldMap (F : Type) := GoMap (Value F)

/-- The tag map `map[string]string`. -/
abbrev Tags := GoMap String

/-- An operand of `fmt.Errorf`. -/
inductive Arg (E : Type) where
  | int (n : Nat)
  | str (s : String)
  | err (e : E)
deriving DecidableEq, Repr

/-- A Go `error` value seen by the plugin: one made outside the package and
handed on as it is, or one built here by `fmt.Errorf(format, args...)`. -/
inductive Error (E : Type) where
  | external (e : E)
  | Errorf (format : String) (args : List (Arg E))
deriving DecidableEq, Repr

/-- What `processResponse` leaves behind: the error it returns (`none` is
`nil`) and the field map, which it mutates in place, as it stands at return. -/
structure Outcome (E F : Type) where
  err : Option (Error E)
  fields : FieldMap F

section parse

variable {E F : Type}

/-- The inner loop of `processResponse` over the text values of a
`servers.bind.` record (source lines 95-110), from the field map `fields`. -/
def serversLoop (pf : String → Except E F) :
    List String → FieldMap F → Outcome E F
  | [], fields => ⟨none, fields⟩
  | str :: rest, fields =>
    let arr := strings.Fields str
    if h : arr.length = 3 then
      match pf arr[1] with
      | .error e => ⟨some (.external e), fields⟩
      | .ok queries =>
        match pf arr[2] with
        | .error e => ⟨some (.external e), fields⟩
        | .ok failedQueries =>
          serversLoop pf rest
            ((fields.set "queries" (.float64 queries)).set "queries_failed"
              (.float64 failedQueries))
    else
      ⟨some (.Errorf
        "stats DNS record servers.bind.: unexpeced number of argument in record: got %d, want %d"
        [.int arr.length, .int 3]), fields⟩

/-- The outer loop of `processResponse` over the answer records (source lines
88-124), from the field map `fields`. -/
def answersLoop (pf : String → Except E F) :
    List dns.RR → FieldMap F → Outcome E F
  | [], fields => ⟨none, fields⟩
  | .other _ :: rest, fields => answersLoop pf rest fields
  | .TXT Hdr Txt :: rest, fields =>
    if Hdr.Name = "servers.bind." then
      match serversLoop pf Txt fields with
      | ⟨some e, fields1⟩ => ⟨some e, fields1⟩
      | ⟨none, fields1⟩ => answersLoop pf rest fields1
    else
      if h : Txt.length = 1 then
        match pf Txt[0] with
        | .error e => ⟨some (.external e), fields⟩
        | .ok f =>
          match strings.Split Hdr.Name '.' with
          | [] => answersLoop pf rest fields
          | name0 :: _ => answersLoop pf rest (fields.set name0 (.float64 f))
      else
        ⟨some (.Errorf
          "stats DNS record %q: unexpected number of replies: got %d, want %d"
          [.str Hdr.Name, .int Txt.length, .int 1]), fields⟩

/-- The function `processResponse(response, metricName, fields)`. -/
def processResponse (pf : String → Except E F) (response : dns.Msg)
    (metricName : String) (fields : FieldMap F) : Outcome E F :=
  answersLoop pf response.Answer fields

end parse

/-- The plugin value `Dnsmasq`: the DNS client `c` and the configured
endpoint `Server`. -/
structure Dnsmasq (C : Type) where
  c : C
  Server : String
deriving DecidableEq, Repr

/-- The method `(d *Dnsmasq) setDefaultValues()`; the plugin value it mutates
is returned. -/
def Dnsmasq.setDefaultValues {C : Type} (d : Dnsmasq C) : Dnsmasq C :=
  if d.Server = "" then ⟨d.c, "127.0.0.1:53"⟩ else d

/-- The function `question(name)`. -/
def question (name : String) : dns.Question :=
  ⟨name, dns.TypeTXT, dns.ClassCHAOS⟩

/-- The local `metrics` of `Gather`: the fixed metric names, in order. -/
def metrics : List String :=
  [ "cachesize.bind.",
    "insertions.bind.",
    "evictions.bind.",
    "misses.bind.",
    "hits.bind.",
    "auth.bind.",
    "servers.bind." ]

/-- The collaborators of a cycle, as functions of a world state `σ`:
`os.Hostname()`, `dns.Id()`, `(*dns.Client).Exchange(msg, address)` on the
client `c`, and the accumulator's `AddFields(measurement, fields, tags)`. -/
structure World (σ E C F : Type) where
  Hostname : σ → Except E String × σ
  Id : σ → Nat × σ
  Exchange : C → dns.Msg → String → σ → Except E dns.Msg × σ
  AddFields : String → FieldMap F → Tags → σ → σ

/-- One call of `d.c.Exchange`, as recorded in a cycle's trace: the message
and the address it was given, and what it returned. -/
structure Exchanged (E : Type) where
  msg : dns.Msg
  server : String
  result : Except E dns.Msg

/-- One call of `acc.AddFields`, as recorded in a cycle's trace. -/
structure Added (F : Type) where
  measurement : String
  fields : FieldMap F
  tags : Tags

/-- The state of the metric loop of `Gather`: the error that ended it (if
any), the world, the field map, and the exchanges made so far. -/
structure LoopState (σ E F : Type) where
  err : Option (Error E)
  world : σ
  fields : FieldMap F
  exchanged : List (Exchanged E)

/-- How a call of `Gather` ends: it returns an error value (`none` is `nil`),
or it panics. -/
inductive Status (E : Type) where
  | returned (err : Option (Error E))
  | panicked
deriving DecidableEq, Repr

/-- A cycle: how `Gather` ended, the plugin value and the world it left, and
the trace of its calls of `Exchange` and of `AddFields`, in order. -/
structure Run (σ E C F : Type) where
  status : Status E
  d : Dnsmasq C
  world : σ
  exchanged : List (Exchanged E)
  added : List (Added F)

section gather

variable {σ E C F : Type}

/-- The loop of `Gather` over the metric names (source lines 63-81); `log`
holds the exchanges already made. -/
def gatherLoop (pf : String → Except E F) (w : World σ E C F) (d : Dnsmasq C) :
    List String → σ → FieldMap F → List (Exchanged E) → LoopState σ E F
  | [], s, fields, log => ⟨none, s, fields, log⟩
  | metricName :: rest, s, fields, log =>
    match w.Id s with
    | (id, s1) =>
      let msg : dns.Msg := ⟨⟨id, true⟩, [question metricName], []⟩
      match w.Exchange d.c msg d.Server s1 with
      | (.error err, s2) =>
        ⟨some (.external err), s2, fields, log ++ [⟨msg, d.Server, .error err⟩]⟩
      | (.ok resp, s2) =>
        match processResponse pf resp metricName fields with
        | ⟨some err, fields1⟩ =>
          ⟨some err, s2, fields1, log ++ [⟨msg, d.Server, .ok resp⟩]⟩
        | ⟨none, fields1⟩ =>
          gatherLoop pf w d rest s2 fields1 (log ++ [⟨msg, d.Server, .ok resp⟩])

/-- The method `(d *Dnsmasq) Gather(acc)`, from the plugin value `d0` and the
world state `s`. -/
def Dnsmasq.Gather (pf : String → Except E F) (w : World σ E C F)
    (d0 : Dnsmasq C) (s : σ) : Run σ E C F :=
  let d := d0.setDefaultValues
  let fields : FieldMap F := GoMap.empty
  match w.Hostname s with
  | (.error err, s1) =>
    ⟨.returned (some (.Errorf "Failed to get hostname:" [.err err])), d, s1, [], []⟩
  | (.ok hostname, s1) =>
    match strings.Split hostname '.' with
    | [] => ⟨.panicked, d, s1, [], []⟩
    | host :: _ =>
      let tags : Tags := (GoMap.empty.set "server" d.Server).set "host" host
      let l := gatherLoop pf w d metrics s1 fields []
      match l.err with
      | some err => ⟨.returned (some err), d, l.world, l.exchanged, []⟩
      | none =>
        ⟨.returned none, d, w.AddFields "dnsmasq" l.fields tags l.world,
          l.exchanged, [⟨"dnsmasq", l.fields, tags⟩]⟩

end gather

/-- Whether an answer record is a `*dns.TXT`, the test `a.(*dns.TXT)` of
`processResponse`. -/
def isTXT : dns.RR → Bool
  | .TXT _ _ => true
  | .other _ => false

/-- A concrete parser to instantiate `pf` with: it reads a string of one to
fifteen decimal digits as the integer it denotes, where `strconv.ParseFloat`
is exact, and rejects every other string (which `strconv.ParseFloat` does
not). -/
def decimalParse (s : String) : Except String Nat :=
  if s.data ≠ [] ∧ s.data.length ≤ 15 ∧ s.data.all Char.isDigit then
    .ok (s.data.foldl (fun n c => 10 * n + (c.toNat - 48)) 0)
  else .error s

/-- A concrete world, over a counter: the hostname is "box.example.org",
message ids count up, the sink does nothing, and the exchange answers a
message of one question with one TXT record named as the question, holding
"127.0.0.1 42 1340" for `servers.bind.` and "5" for any other name; it fails
for the name `failing` and for a message without exactly one question. -/
def sampleWorld (failing : String) : World Nat String Unit Nat :=
  ⟨fun s => (.ok "box.example.org", s),
    fun s => (s, s + 1),
    fun _ msg _ s =>
      match msg.Question with
      | [q] =>
        if q.Name = failing then (.error "timeout", s)
        else
          (.ok ⟨msg.MsgHdr, msg.Question,
            [.TXT ⟨q.Name⟩ [if q.Name = "servers.bind." then "127.0.0.1 42 1340" else "5"]]⟩, s)
      | _ => (.error "no question", s),
    fun _ _ _ s => s⟩

/-- A concrete world in which the hostname lookup fails with the error
"no hostname"; the rest is as in `sampleWorld ""`. -/
def hostlessWorld : World Nat String Unit Nat :=
  ⟨fun s => (.error "no hostname", s), (sampleWorld "").Id, (sampleWorld "").Exchange,
    (sampleWorld "").AddFields⟩

end dnsmasq

/-! ## Lemmas on the string functions -/

namespace strings

theorem splitGo_ne_nil (sep : Char) (cs cur : List Char) : splitGo sep cs cur ≠ [] := by
  induction cs generalizing cur with
  | nil => simp [splitGo]
  | cons c cs ih =>
    unfold splitGo
    split
    · simp
    · exact ih _

theorem splitGo_first (sep : Char) (xs rest cur : List Char) (h : sep ∉ xs) :
    splitGo sep (xs ++ sep :: rest) cur
      = String.mk (cur.reverse ++ xs) :: splitGo sep rest [] := by
  induction xs generalizing cur with
  | nil => simp [splitGo]
  | cons x xs ih =>
    have hx : x ≠ sep := fun e => h (by simp [e])
    have hxs : sep ∉ xs := fun e => h (by simp [e])
    simp only [List.cons_append, splitGo, if_neg hx]
    have := ih (x :: cur) hxs
    simp only [List.append_eq] at this ⊢
    rw [this]
    simp

theorem Split_first (sep : Char) (X rest : String) (h : sep ∉ X.data) :
    Split (X ++ String.mk (sep :: rest.data)) sep = X :: Split rest sep := by
  unfold Split
  rw [String.data_append, splitGo_first sep _ _ _ h]
  simp

end strings

namespace dnsmasq

variable {σ E C F : Type}

/-! ## Lemmas on the two loops of processResponse -/

theorem GoMap.set_same {V : Type} (m : GoMap V) (k : String) (v : V) :
    (m.set k v) k = some v := by
  simp [GoMap.set]

theorem GoMap.set_other {V : Type} (m : GoMap V) (k k1 : String) (v : V) (h : k1 ≠ k) :
    (m.set k v) k1 = m k1 := by
  simp [GoMap.set, h]

theorem GoMap.set_ne_none {V : Type} (m : GoMap V) (k k1 : String) (v : V) :
    (m.set k v) k1 ≠ none ↔ (k1 = k ∨ m k1 ≠ none) := by
  unfold GoMap.set
  split <;> simp [*]

/-- One well-formed text value of a `servers.bind.` record. -/
theorem serversLoop_cons_ok (pf : String → Except E F) (str l a b : String) (q f : F)
    (rest : List String) (m : FieldMap F)
    (hs : strings.Fields str = [l, a, b]) (ha : pf a = .ok q) (hb : pf b = .ok f) :
    serversLoop pf (str :: rest) m
      = serversLoop pf rest
          ((m.set "queries" (.float64 q)).set "queries_failed" (.float64 f)) := by
  simp [serversLoop, hs, ha, hb]

/-- A text value of a `servers.bind.` record with a token count other than 3. -/
theorem serversLoop_cons_count (pf : String → Except E F) (str : String)
    (rest : List String) (m : FieldMap F) (hs : (strings.Fields str).length ≠ 3) :
    serversLoop pf (str :: rest) m
      = ⟨some (.Errorf
          "stats DNS record servers.bind.: unexpeced number of argument in record: got %d, want %d"
          [.int (strings.Fields str).length, .int 3]), m⟩ := by
  simp [serversLoop, hs]

theorem serversLoop_append_ok (pf : String → Except E F) (t1 t2 : List String)
    (m : FieldMap F) (h : (serversLoop pf t1 m).err = none) :
    serversLoop pf (t1 ++ t2) m = serversLoop pf t2 (serversLoop pf t1 m).fields := by
  induction t1 generalizing m with
  | nil => simp [serversLoop]
  | cons s t1 ih =>
    simp only [List.cons_append, serversLoop] at h ⊢
    split
    · rename_i h3
      simp only [h3, dite_true] at h
      split
      · simp_all
      · split
        · simp_all
        · simp_all
    · simp_all

theorem answersLoop_append_ok (pf : String → Except E F) (pre post : List dns.RR)
    (m : FieldMap F) (h : (answersLoop pf pre m).err = none) :
    answersLoop pf (pre ++ post) m = answersLoop pf post (answersLoop pf pre m).fields := by
  induction pre generalizing m with
  | nil => simp [answersLoop]
  | cons a pre ih =>
    cases a with
    | other hdr => simpa [answersLoop] using ih m (by simpa [answersLoop] using h)
    | TXT Hdr Txt =>
      simp only [List.cons_append, answersLoop] at h ⊢
      split
      · split <;> simp_all
      · split
        · split
          · simp_all
          · split <;> simp_all
        · simp_all

/-- Text values that are all well formed leave the inner loop without error. -/
theorem serversLoop_wellformed (pf : String → Except E F) (t1 : List String)
    (m : FieldMap F)
    (h : ∀ t ∈ t1, ∃ l a b q f, strings.Fields t = [l, a, b] ∧ pf a = .ok q ∧ pf b = .ok f) :
    (serversLoop pf t1 m).err = none := by
  induction t1 generalizing m with
  | nil => simp [serversLoop]
  | cons t t1 ih =>
    obtain ⟨l, a, b, q, f, hs, ha, hb⟩ := h t (by simp)
    rw [serversLoop_cons_ok pf t l a b q f t1 m hs ha hb]
    exact ih _ (fun t' ht' => h t' (by simp [ht']))

theorem serversLoop_append_err (pf : String → Except E F) (t1 t2 : List String)
    (m : FieldMap F) (h : (serversLoop pf t1 m).err ≠ none) :
    serversLoop pf (t1 ++ t2) m = serversLoop pf t1 m := by
  induction t1 generalizing m with
  | nil => simp [serversLoop] at h
  | cons s t1 ih =>
    simp only [List.cons_append, serversLoop] at h ⊢
    split
    · rename_i h3
      simp only [h3, dite_true] at h
      split
      · rfl
      · split
        · rfl
        · simp_all
    · rfl

theorem answersLoop_append_err (pf : String → Except E F) (pre post : List dns.RR)
    (m : FieldMap F) (h : (answersLoop pf pre m).err ≠ none) :
    answersLoop pf (pre ++ post) m = answersLoop pf pre m := by
  induction pre generalizing m with
  | nil => simp [answersLoop] at h
  | cons a pre ih =>
    cases a with
    | other hdr => simpa [answersLoop] using ih m (by simpa [answersLoop] using h)
    | TXT Hdr Txt =>
      simp only [List.cons_append, answersLoop] at h ⊢
      split
      · split <;> simp_all
      · split
        · split
          · rfl
          · split <;> simp_all
        · rfl

/-- A `servers.bind.` record on its own is the inner loop over its values. -/
theorem answersLoop_servers_single (pf : String → Except E F) (Hdr : dns.RR_Header)
    (Txt : List String) (m : FieldMap F) (h : Hdr.Name = "servers.bind.") :
    answersLoop pf [.TXT Hdr Txt] m = serversLoop pf Txt m := by
  simp only [answersLoop, h, if_true]
  split
  · rename_i heq
    exact heq.symm
  · rename_i heq
    exact heq.symm

/-- A simple record that fails leaves the field map as it found it. -/
theorem answersLoop_simple_single_err (pf : String → Except E F) (Hdr : dns.RR_Header)
    (Txt : List String) (m : FieldMap F) (h : Hdr.Name ≠ "servers.bind.")
    (herr : (answersLoop pf [.TXT Hdr Txt] m).err ≠ none) :
    (answersLoop pf [.TXT Hdr Txt] m).fields = m := by
  simp only [answersLoop, if_neg h] at herr ⊢
  split
  · split
    · rfl
    · split <;> simp_all
  · rfl

/-- A failing inner loop fails at one text value, after a prefix of values
that pass, and stops with the field map that prefix made. -/
theorem serversLoop_error_split (pf : String → Except E F) (ts : List String)
    (m : FieldMap F) (h : (serversLoop pf ts m).err ≠ none) :
    ∃ t1 str t2, ts = t1 ++ str :: t2
      ∧ (serversLoop pf t1 m).err = none
      ∧ (serversLoop pf (t1 ++ [str]) m).err ≠ none
      ∧ (serversLoop pf ts m).fields = (serversLoop pf t1 m).fields := by
  induction ts generalizing m with
  | nil => simp [serversLoop] at h
  | cons s ts ih =>
    by_cases hs : (serversLoop pf [s] m).err = none
    · have e1 : serversLoop pf (s :: ts) m
          = serversLoop pf ts (serversLoop pf [s] m).fields :=
        serversLoop_append_ok pf [s] ts m hs
      rw [e1] at h
      obtain ⟨t1, str, t2, hts, h1, h2, h3⟩ := ih _ h
      refine ⟨s :: t1, str, t2, by simp [hts], ?_, ?_, ?_⟩
      · have := serversLoop_append_ok pf [s] t1 m hs
        simp only [List.singleton_append] at this
        rw [this]; exact h1
      · have := serversLoop_append_ok pf [s] (t1 ++ [str]) m hs
        simp only [List.singleton_append] at this
        rw [List.cons_append, this]; exact h2
      · have := serversLoop_append_ok pf [s] t1 m hs
        simp only [List.singleton_append] at this
        rw [e1, this]; exact h3
    · have e1 : serversLoop pf (s :: ts) m = serversLoop pf [s] m :=
        serversLoop_append_err pf [s] ts m hs
      refine ⟨[], s, ts, rfl, by simp [serversLoop], by simpa using hs, ?_⟩
      rw [e1]
      simp only [serversLoop] at hs ⊢
      split
      · split
        · rfl
        · split
          · rfl
          · simp_all
      · rfl

/-- A failing outer loop fails at one TXT record, after a prefix of answers
that pass. -/
theorem answersLoop_error_split (pf : String → Except E F) (answers : List dns.RR)
    (m : FieldMap F) (h : (answersLoop pf answers m).err ≠ none) :
    ∃ pre Hdr Txt post, answers = pre ++ .TXT Hdr Txt :: post
      ∧ (answersLoop pf pre m).err = none
      ∧ (answersLoop pf [.TXT Hdr Txt] (answersLoop pf pre m).fields).err ≠ none
      ∧ answersLoop pf answers m
          = answersLoop pf [.TXT Hdr Txt] (answersLoop pf pre m).fields := by
  induction answers generalizing m with
  | nil => simp [answersLoop] at h
  | cons a answers ih =>
    by_cases ha : (answersLoop pf [a] m).err = none
    · have e1 : answersLoop pf (a :: answers) m
          = answersLoop pf answers (answersLoop pf [a] m).fields :=
        answersLoop_append_ok pf [a] answers m ha
      rw [e1] at h
      obtain ⟨pre, Hdr, Txt, post, has, h1, h2, h3⟩ := ih _ h
      have e2 : answersLoop pf (a :: pre) m
          = answersLoop pf pre (answersLoop pf [a] m).fields :=
        answersLoop_append_ok pf [a] pre m ha
      refine ⟨a :: pre, Hdr, Txt, post, by simp [has], ?_, ?_, ?_⟩
      · rw [e2]; exact h1
      · rw [e2]; exact h2
      · rw [e1, e2]; exact h3
    · have e1 : answersLoop pf (a :: answers) m = answersLoop pf [a] m :=
        answersLoop_append_err pf [a] answers m ha
      cases a with
      | other hdr => simp [answersLoop] at ha
      | TXT Hdr Txt =>
        exact ⟨[], Hdr, Txt, answers, rfl, by simp [answersLoop],
          by simpa [answersLoop] using ha, by simpa [answersLoop] using e1⟩

/-- Whether the inner loop fails does not depend on the field map. -/
theorem serversLoop_err_indep (pf : String → Except E F) (ts : List String)
    (m m1 : FieldMap F) : (serversLoop pf ts m).err = (serversLoop pf ts m1).err := by
  induction ts generalizing m m1 with
  | nil => simp [serversLoop]
  | cons s ts ih =>
    simp only [serversLoop]
    split
    · split
      · rfl
      · split
        · rfl
        · exact ih _ _
    · rfl

/-- Whether processing one answer fails does not depend on the field map. -/
theorem answersLoop_single_err_indep (pf : String → Except E F) (a : dns.RR)
    (m m1 : FieldMap F) : (answersLoop pf [a] m).err = (answersLoop pf [a] m1).err := by
  cases a with
  | other hdr => simp [answersLoop]
  | TXT Hdr Txt =>
    by_cases hname : Hdr.Name = "servers.bind."
    · rw [answersLoop_servers_single pf Hdr Txt m hname,
        answersLoop_servers_single pf Hdr Txt m1 hname]
      exact serversLoop_err_indep pf Txt m m1
    · simp only [answersLoop, if_neg hname]
      split
      · split
        · rfl
        · split <;> rfl
      · rfl

/-- Whether the outer loop fails does not depend on the field map. -/
theorem answersLoop_err_indep (pf : String → Except E F) (answers : List dns.RR)
    (m m1 : FieldMap F) :
    (answersLoop pf answers m).err = (answersLoop pf answers m1).err := by
  induction answers generalizing m m1 with
  | nil => simp [answersLoop]
  | cons a answers ih =>
    have hi := answersLoop_single_err_indep pf a m m1
    by_cases ha : (answersLoop pf [a] m).err = none
    · have e1 := answersLoop_append_ok pf [a] answers m ha
      have e2 := answersLoop_append_ok pf [a] answers m1 (hi ▸ ha)
      simp only [List.singleton_append] at e1 e2
      rw [e1, e2]
      exact ih _ _
    · have e1 := answersLoop_append_err pf [a] answers m ha
      have e2 := answersLoop_append_err pf [a] answers m1 (hi ▸ ha)
      simp only [List.singleton_append] at e1 e2
      rw [e1, e2]
      exact hi

/-- A simple record with one text value that parses sets the first segment
of its name. -/
theorem answersLoop_simple_ok (pf : String → Except E F) (Hdr : dns.RR_Header)
    (str key : String) (tl : List String) (v : F) (m : FieldMap F)
    (hname : Hdr.Name ≠ "servers.bind.") (hs : pf str = .ok v)
    (hsplit : strings.Split Hdr.Name '.' = key :: tl) :
    answersLoop pf [.TXT Hdr [str]] m = ⟨none, m.set key (.float64 v)⟩ := by
  simp [answersLoop, hname, hs, hsplit]

/-- The outer loop, one answer at a time. -/
theorem answersLoop_cons (pf : String → Except E F) (a : dns.RR) (rest : List dns.RR)
    (m : FieldMap F) :
    ((answersLoop pf [a] m).err = none
        ∧ answersLoop pf (a :: rest) m = answersLoop pf rest (answersLoop pf [a] m).fields)
      ∨ ((answersLoop pf [a] m).err ≠ none
        ∧ answersLoop pf (a :: rest) m = answersLoop pf [a] m) := by
  by_cases ha : (answersLoop pf [a] m).err = none
  · exact Or.inl ⟨ha, answersLoop_append_ok pf [a] rest m ha⟩
  · exact Or.inr ⟨ha, answersLoop_append_err pf [a] rest m ha⟩

/-- The inner loop writes no key but "queries" and "queries_failed", and
removes none. -/
theorem serversLoop_frame (pf : String → Except E F) (ts : List String) (m : FieldMap F)
    (k : String) :
    ((k ≠ "queries" ∧ k ≠ "queries_failed") → (serversLoop pf ts m).fields k = m k)
      ∧ (m k ≠ none → (serversLoop pf ts m).fields k ≠ none) := by
  induction ts generalizing m with
  | nil => simp [serversLoop]
  | cons s ts ih =>
    simp only [serversLoop]
    split
    · split
      · simp
      · split
        · simp
        · constructor
          · intro hk
            rw [(ih _).1 hk, GoMap.set_other _ _ _ _ hk.2, GoMap.set_other _ _ _ _ hk.1]
          · intro hm
            apply (ih _).2
            rw [GoMap.set_ne_none, GoMap.set_ne_none]
            exact Or.inr (Or.inr hm)
    · simp

/-- A simple record on its own leaves the field map as it was or sets the
first segment of its name. -/
theorem answersLoop_simple_single_fields (pf : String → Except E F) (Hdr : dns.RR_Header)
    (Txt : List String) (m : FieldMap F) (h : Hdr.Name ≠ "servers.bind.") :
    (answersLoop pf [.TXT Hdr Txt] m).fields = m
      ∨ ∃ key tl v, strings.Split Hdr.Name '.' = key :: tl
          ∧ (answersLoop pf [.TXT Hdr Txt] m).fields = m.set key (.float64 v) := by
  simp only [answersLoop, if_neg h]
  split
  · split
    · exact Or.inl rfl
    · split
      · exact Or.inl rfl
      · rename_i v _ _ key tl hsp
        exact Or.inr ⟨key, tl, v, hsp, rfl⟩
  · exact Or.inl rfl

/-- The frame of the outer loop at the key `k`: the key keeps its value when
every `servers.bind.` record is without text values or `k` is neither
"queries" nor "queries_failed", and no other TXT record has `k` as the first
segment of its name. -/
theorem answersLoop_frame (pf : String → Except E F) (answers : List dns.RR)
    (m : FieldMap F) (k : String)
    (hs : ∀ Hdr Txt, dns.RR.TXT Hdr Txt ∈ answers → Hdr.Name = "servers.bind." →
      Txt = [] ∨ (k ≠ "queries" ∧ k ≠ "queries_failed"))
    (hq : ∀ Hdr Txt, dns.RR.TXT Hdr Txt ∈ answers → Hdr.Name ≠ "servers.bind." →
      (strings.Split Hdr.Name '.').head? ≠ some k) :
    (answersLoop pf answers m).fields k = m k := by
  induction answers generalizing m with
  | nil => simp [answersLoop]
  | cons a answers ih =>
    have hone : (answersLoop pf [a] m).fields k = m k := by
      cases a with
      | other hdr => simp [answersLoop]
      | TXT Hdr Txt =>
        by_cases hname : Hdr.Name = "servers.bind."
        · rw [answersLoop_servers_single pf Hdr Txt m hname]
          rcases hs Hdr Txt (by simp) hname with rfl | hk
          · simp [serversLoop]
          · exact (serversLoop_frame pf Txt m k).1 hk
        · rcases answersLoop_simple_single_fields pf Hdr Txt m hname with e | ⟨key, tl, v, hsp, e⟩
          · rw [e]
          · rw [e]
            have := hq Hdr Txt (by simp) hname
            rw [hsp] at this
            apply GoMap.set_other
            intro hk
            exact this (by simp [hk])
    rcases answersLoop_cons pf a answers m with ⟨_, e⟩ | ⟨_, e⟩
    · rw [e, ih _ (fun H T hm => hs H T (List.mem_cons_of_mem _ hm))
        (fun H T hm => hq H T (List.mem_cons_of_mem _ hm)), hone]
    · rw [e, hone]

/-- The outer loop removes no key. -/
theorem answersLoop_keeps (pf : String → Except E F) (answers : List dns.RR)
    (m : FieldMap F) (k : String) (hm : m k ≠ none) :
    (answersLoop pf answers m).fields k ≠ none := by
  induction answers generalizing m with
  | nil => simpa [answersLoop] using hm
  | cons a answers ih =>
    have hone : (answersLoop pf [a] m).fields k ≠ none := by
      cases a with
      | other hdr => simpa [answersLoop] using hm
      | TXT Hdr Txt =>
        by_cases hname : Hdr.Name = "servers.bind."
        · rw [answersLoop_servers_single pf Hdr Txt m hname]
          exact (serversLoop_frame pf Txt m k).2 hm
        · rcases answersLoop_simple_single_fields pf Hdr Txt m hname with e | ⟨key, tl, v, _, e⟩
          · rw [e]; exact hm
          · rw [e, GoMap.set_ne_none]; exact Or.inr hm
    rcases answersLoop_cons pf a answers m with ⟨_, e⟩ | ⟨_, e⟩
    · rw [e]; exact ih _ hone
    · rw [e]; exact hone

/-- The outer loop ends without error when each answer on its own does. -/
theorem answersLoop_ok_of_each (pf : String → Except E F) (answers : List dns.RR)
    (m : FieldMap F)
    (h : ∀ a ∈ answers, (answersLoop pf [a] GoMap.empty).err = none) :
    (answersLoop pf answers m).err = none := by
  induction answers generalizing m with
  | nil => simp [answersLoop]
  | cons a answers ih =>
    have ha : (answersLoop pf [a] m).err = none := by
      rw [answersLoop_err_indep pf [a] m GoMap.empty]
      exact h a (by simp)
    rcases answersLoop_cons pf a answers m with ⟨_, e⟩ | ⟨hne, _⟩
    · rw [e]
      exact ih _ (fun b hb => h b (List.mem_cons_of_mem _ hb))
    · exact absurd ha hne

/-- A record on its own is processed without error when, if it is a
`servers.bind.` record, its text values are all well formed and, if it is any
other TXT record, it holds one text value that parses. -/
theorem answersLoop_single_ok_of_wf (pf : String → Except E F) (a : dns.RR) (m : FieldMap F)
    (hservers : ∀ Hdr Txt, a = .TXT Hdr Txt → Hdr.Name = "servers.bind." →
      ∀ t ∈ Txt, ∃ l a b q f, strings.Fields t = [l, a, b] ∧ pf a = .ok q ∧ pf b = .ok f)
    (hsimple : ∀ Hdr Txt, a = .TXT Hdr Txt → Hdr.Name ≠ "servers.bind." →
      ∃ s v, Txt = [s] ∧ pf s = .ok v) :
    (answersLoop pf [a] m).err = none := by
  cases a with
  | other hdr => simp [answersLoop]
  | TXT Hdr Txt =>
    by_cases hname : Hdr.Name = "servers.bind."
    · rw [answersLoop_servers_single pf Hdr Txt m hname]
      exact serversLoop_wellformed pf Txt m (hservers Hdr Txt rfl hname)
    · obtain ⟨s, v, rfl, hv⟩ := hsimple Hdr Txt rfl hname
      cases hsp : strings.Split Hdr.Name '.' with
      | nil => exact absurd hsp (strings.splitGo_ne_nil _ _ _)
      | cons key tl => rw [answersLoop_simple_ok pf Hdr s key tl v m hname hv hsp]

/-- A three-token text value of a `servers.bind.` record whose second or third
token does not parse stops the inner loop with that parse error and the field
map as it was. -/
theorem serversLoop_cons_parse (pf : String → Except E F) (str l a b : String)
    (rest : List String) (m : FieldMap F) (hstr : strings.Fields str = [l, a, b])
    (hbad : (∃ e, pf a = .error e) ∨ (∃ e, pf b = .error e)) :
    ∃ e, serversLoop pf (str :: rest) m = ⟨some (.external e), m⟩
      ∧ (pf a = .error e ∨ pf b = .error e) := by
  cases hpa : pf a with
  | error e => exact ⟨e, by simp [serversLoop, hstr, hpa], Or.inl rfl⟩
  | ok q =>
    cases hpb : pf b with
    | error e => exact ⟨e, by simp [serversLoop, hstr, hpa, hpb], Or.inr rfl⟩
    | ok f =>
      rcases hbad with ⟨e, he⟩ | ⟨e, he⟩
      · rw [hpa] at he; cases he
      · rw [hpb] at he; cases he

/-! ## The parser: processResponse -/

/-- C1: a reply whose only answer is a TXT record named `X.bind.` (X without
a dot, the name not `servers.bind.`) with the single text value `s`, where `s`
parses as the float `v`: processResponse returns no error and leaves the field
map equal to the initial one with key `X` set to `v`; `X` is the first
dot-delimited segment of the record's name. -/
theorem processResponse_simple_record (pf : String → Except E F) (m : FieldMap F)
    (X s metricName : String) (v : F) (hdr : dns.MsgHdr) (qs : List dns.Question)
    (hX : '.' ∉ X.data) (hname : X ++ ".bind." ≠ "servers.bind.") (hs : pf s = .ok v) :
    processResponse pf ⟨hdr, qs, [.TXT ⟨X ++ ".bind."⟩ [s]]⟩ metricName m
        = ⟨none, m.set X (.float64 v)⟩
      ∧ (strings.Split (X ++ ".bind.") '.').head? = some X := by
  have hsplit : strings.Split (X ++ ".bind.") '.' = X :: strings.Split "bind." '.' :=
    strings.Split_first '.' X "bind." hX
  constructor
  · simp [processResponse, answersLoop, hname, hs, hsplit]
  · simp [hsplit]

/-- C1, at the specification's example: the text value "5" under the record
`hits.bind.` on the empty map, with the decimal parser. -/
theorem processResponse_simple_record_witness :
    '.' ∉ "hits".data ∧ "hits" ++ ".bind." ≠ "servers.bind." ∧ decimalParse "5" = .ok 5
      ∧ processResponse decimalParse ⟨⟨0, true⟩, [], [.TXT ⟨"hits" ++ ".bind."⟩ ["5"]]⟩
          "hits.bind." GoMap.empty
        = ⟨none, GoMap.empty.set "hits" (.float64 5)⟩ :=
  ⟨by decide, by decide, rfl,
    (processResponse_simple_record decimalParse GoMap.empty "hits" "5" "hits.bind." 5
      ⟨0, true⟩ [] (by decide) (by decide) rfl).1⟩

/-- C2: a reply whose only answer is a TXT record named `servers.bind.` with
a single text value of three white-space separated tokens, the second and the
third parsing as the floats `q` and `f`: processResponse returns no error and
leaves the field map equal to the initial one with "queries" set to `q` and
"queries_failed" set to `f`, whatever the map held under these keys. -/
theorem processResponse_servers_record (pf : String → Except E F) (m : FieldMap F)
    (str l a b metricName : String) (q f : F) (hdr : dns.MsgHdr) (qs : List dns.Question)
    (hstr : strings.Fields str = [l, a, b]) (ha : pf a = .ok q) (hb : pf b = .ok f) :
    processResponse pf ⟨hdr, qs, [.TXT ⟨"servers.bind."⟩ [str]]⟩ metricName m
      = ⟨none, (m.set "queries" (.float64 q)).set "queries_failed" (.float64 f)⟩ := by
  simp [processResponse, answersLoop, serversLoop, hstr, ha, hb]

/-- C2, at the specification's example: "127.0.0.1 42 1340" under
`servers.bind.` on the empty map, with the decimal parser. -/
theorem processResponse_servers_record_witness :
    strings.Fields "127.0.0.1 42 1340" = ["127.0.0.1", "42", "1340"]
      ∧ decimalParse "42" = .ok 42 ∧ decimalParse "1340" = .ok 1340
      ∧ processResponse decimalParse
          ⟨⟨0, true⟩, [], [.TXT ⟨"servers.bind."⟩ ["127.0.0.1 42 1340"]]⟩
          "servers.bind." GoMap.empty
        = ⟨none, (GoMap.empty.set "queries" (.float64 42)).set "queries_failed"
            (.float64 1340)⟩ :=
  ⟨by decide, rfl, rfl,
    processResponse_servers_record decimalParse GoMap.empty "127.0.0.1 42 1340"
      "127.0.0.1" "42" "1340" "servers.bind." 42 1340 ⟨0, true⟩ [] (by decide) rfl rfl⟩

/-- C3: when the answers before a TXT record named `servers.bind.` are
processed without error, the record's text values before `str` are well
formed, and `str` splits into a number of tokens other than 3 (none included):
processResponse returns an error, the one that reports the token count. -/
theorem processResponse_servers_token_count (pf : String → Except E F)
    (pre post : List dns.RR) (t1 t2 : List String) (str metricName : String)
    (m : FieldMap F) (hdr : dns.MsgHdr) (qs : List dns.Question)
    (hpre : (processResponse pf ⟨hdr, qs, pre⟩ metricName m).err = none)
    (ht1 : ∀ t ∈ t1, ∃ l a b q f,
      strings.Fields t = [l, a, b] ∧ pf a = .ok q ∧ pf b = .ok f)
    (hstr : (strings.Fields str).length ≠ 3) :
    (processResponse pf
        ⟨hdr, qs, pre ++ .TXT ⟨"servers.bind."⟩ (t1 ++ str :: t2) :: post⟩ metricName m).err
      = some (.Errorf
          "stats DNS record servers.bind.: unexpeced number of argument in record: got %d, want %d"
          [.int (strings.Fields str).length, .int 3]) := by
  simp only [processResponse] at hpre ⊢
  rw [answersLoop_append_ok pf pre _ m hpre]
  simp only [answersLoop, if_true]
  rw [serversLoop_append_ok pf t1 _ _ (serversLoop_wellformed pf t1 _ ht1),
    serversLoop_cons_count pf str t2 _ hstr]

/-- C3, at a reply whose `servers.bind.` record holds a well-formed value and
then an all-blank one, after a well-formed `hits.bind.` record. -/
theorem processResponse_servers_token_count_witness :
    (processResponse decimalParse ⟨⟨0, true⟩, [], [.TXT ⟨"hits.bind."⟩ ["5"]]⟩ "servers.bind."
        GoMap.empty).err = none
      ∧ (strings.Fields "  ").length ≠ 3
      ∧ (processResponse decimalParse
          ⟨⟨0, true⟩, [], [.TXT ⟨"hits.bind."⟩ ["5"]]
            ++ .TXT ⟨"servers.bind."⟩ (["a 1 2"] ++ "  " :: ["b 3 4"]) :: [.other ⟨"x."⟩]⟩
          "servers.bind." GoMap.empty).err
        = some (.Errorf
            "stats DNS record servers.bind.: unexpeced number of argument in record: got %d, want %d"
            [.int (strings.Fields "  ").length, .int 3]) :=
  ⟨by decide, by decide,
    processResponse_servers_token_count decimalParse [.TXT ⟨"hits.bind."⟩ ["5"]]
      [.other ⟨"x."⟩] ["a 1 2"] ["b 3 4"] "  " "servers.bind." GoMap.empty ⟨0, true⟩ []
      (by decide)
      (fun t ht => by
        have ht1 : t = "a 1 2" := by simpa using ht
        exact ⟨"a", "1", "2", 1, 2, by subst ht1; decide, rfl, rfl⟩)
      (by decide)⟩

/-- C4: when the answers before a TXT record whose name is not `servers.bind.`
are processed without error and the record carries no text value, or two or
more: processResponse returns an error, the one that reports the count,
whatever the text values are. -/
theorem processResponse_simple_value_count (pf : String → Except E F)
    (pre post : List dns.RR) (Hdr : dns.RR_Header) (Txt : List String)
    (metricName : String) (m : FieldMap F) (hdr : dns.MsgHdr) (qs : List dns.Question)
    (hpre : (processResponse pf ⟨hdr, qs, pre⟩ metricName m).err = none)
    (hname : Hdr.Name ≠ "servers.bind.")
    (hlen : Txt.length = 0 ∨ 2 ≤ Txt.length) :
    (processResponse pf ⟨hdr, qs, pre ++ .TXT Hdr Txt :: post⟩ metricName m).err
      = some (.Errorf
          "stats DNS record %q: unexpected number of replies: got %d, want %d"
          [.str Hdr.Name, .int Txt.length, .int 1]) := by
  have hne : ¬ Txt.length = 1 := by omega
  simp only [processResponse] at hpre ⊢
  rw [answersLoop_append_ok pf pre _ m hpre]
  simp only [answersLoop, if_neg hname, dif_neg hne]

/-- C4, at a `hits.bind.` record with two numeric text values. -/
theorem processResponse_simple_value_count_witness :
    (processResponse decimalParse ⟨⟨0, true⟩, [], []⟩ "hits.bind." GoMap.empty).err = none
      ∧ (dns.RR_Header.mk "hits.bind.").Name ≠ "servers.bind."
      ∧ (processResponse decimalParse
          ⟨⟨0, true⟩, [], [] ++ .TXT ⟨"hits.bind."⟩ ["5", "6"] :: []⟩ "hits.bind."
          GoMap.empty).err
        = some (.Errorf
            "stats DNS record %q: unexpected number of replies: got %d, want %d"
            [.str "hits.bind.", .int 2, .int 1]) :=
  ⟨by decide, by decide,
    processResponse_simple_value_count decimalParse [] [] ⟨"hits.bind."⟩ ["5", "6"]
      "hits.bind." GoMap.empty ⟨0, true⟩ [] (by decide) (by decide) (Or.inr (by decide))⟩

/-- C5: answers that are not TXT records are ignored: the error and the field
map are those of the reply with the non-TXT answers removed, and a reply made
only of non-TXT answers gives no error and leaves the field map as it was. -/
theorem processResponse_ignores_non_TXT (pf : String → Except E F) (response : dns.Msg)
    (metricName : String) (m : FieldMap F) (others : List dns.RR_Header) :
    processResponse pf response metricName m
        = processResponse pf
            ⟨response.MsgHdr, response.Question, response.Answer.filter isTXT⟩ metricName m
      ∧ processResponse pf
            ⟨response.MsgHdr, response.Question, others.map dns.RR.other⟩ metricName m
        = ⟨none, m⟩ := by
  constructor
  · simp only [processResponse]
    generalize response.Answer = answers
    induction answers generalizing m with
    | nil => simp [answersLoop]
    | cons a answers ih =>
      cases a with
      | other h => simpa [answersLoop, isTXT] using ih m
      | TXT Hdr Txt =>
        simp only [List.filter, isTXT, answersLoop]
        split
        · split <;> simp_all
        · split
          · split
            · rfl
            · split <;> simp_all
          · rfl
  · simp only [processResponse]
    induction others with
    | nil => simp [answersLoop]
    | cons h others ih => simpa [answersLoop] using ih

/-- C6, refuted as stated: on the reply made of a well-formed `hits.bind.`
record and a `servers.bind.` record with the values "a 1 2" and "bad",
processResponse returns an error, the `servers.bind.` record is the offending
one, and yet the field map at return holds "queries" = 1 from that record, so
it is not the map made by the records before it. -/
theorem processResponse_partial_merge_counterexample :
    (processResponse decimalParse ⟨⟨0, true⟩, [], [.TXT ⟨"hits.bind."⟩ ["5"]]⟩
        "servers.bind." GoMap.empty).err = none
      ∧ (processResponse decimalParse
          ⟨⟨0, true⟩, [], [.TXT ⟨"hits.bind."⟩ ["5"], .TXT ⟨"servers.bind."⟩ ["a 1 2", "bad"]]⟩
          "servers.bind." GoMap.empty).err ≠ none
      ∧ (processResponse decimalParse
          ⟨⟨0, true⟩, [], [.TXT ⟨"hits.bind."⟩ ["5"], .TXT ⟨"servers.bind."⟩ ["a 1 2", "bad"]]⟩
          "servers.bind." GoMap.empty).fields "queries" = some (.float64 1)
      ∧ (processResponse decimalParse ⟨⟨0, true⟩, [], [.TXT ⟨"hits.bind."⟩ ["5"]]⟩
          "servers.bind." GoMap.empty).fields "queries" = none
      ∧ (processResponse decimalParse
          ⟨⟨0, true⟩, [], [.TXT ⟨"hits.bind."⟩ ["5"], .TXT ⟨"servers.bind."⟩ ["a 1 2", "bad"]]⟩
          "servers.bind." GoMap.empty).fields
        ≠ (processResponse decimalParse ⟨⟨0, true⟩, [], [.TXT ⟨"hits.bind."⟩ ["5"]]⟩
          "servers.bind." GoMap.empty).fields := by
  refine ⟨by decide, by decide, by decide, by decide, fun h => ?_⟩
  have h1 := congrFun h "queries"
  revert h1
  decide

/-- C6, amended: when processResponse returns an error, the answers split
into a prefix that is processed without error, the offending TXT record, and
the rest.  If that record is not named `servers.bind.`, the field map at
return is the one made by the prefix.  If it is named `servers.bind.`, its
text values split into a prefix that passes, the offending value, and the
rest, and the field map at return is the one made by the answer prefix and
the record cut down to its passing values: the offending value itself
contributes nothing. -/
theorem processResponse_error_keeps_earlier (pf : String → Except E F)
    (response : dns.Msg) (metricName : String) (m : FieldMap F)
    (herr : (processResponse pf response metricName m).err ≠ none) :
    ∃ pre Hdr Txt post, response.Answer = pre ++ .TXT Hdr Txt :: post
      ∧ (processResponse pf ⟨response.MsgHdr, response.Question, pre⟩ metricName m).err = none
      ∧ (processResponse pf ⟨response.MsgHdr, response.Question, pre ++ [.TXT Hdr Txt]⟩
          metricName m).err ≠ none
      ∧ (Hdr.Name ≠ "servers.bind." →
          (processResponse pf response metricName m).fields
            = (processResponse pf ⟨response.MsgHdr, response.Question, pre⟩
                metricName m).fields)
      ∧ (Hdr.Name = "servers.bind." →
          ∃ t1 str t2, Txt = t1 ++ str :: t2
            ∧ (processResponse pf
                ⟨response.MsgHdr, response.Question, pre ++ [.TXT Hdr t1]⟩ metricName m).err
              = none
            ∧ (processResponse pf
                ⟨response.MsgHdr, response.Question, pre ++ [.TXT Hdr (t1 ++ [str])]⟩
                metricName m).err ≠ none
            ∧ (processResponse pf response metricName m).fields
              = (processResponse pf
                  ⟨response.MsgHdr, response.Question, pre ++ [.TXT Hdr t1]⟩
                  metricName m).fields) := by
  simp only [processResponse] at herr ⊢
  obtain ⟨pre, Hdr, Txt, post, has, h1, h2, h3⟩ :=
    answersLoop_error_split pf response.Answer m herr
  refine ⟨pre, Hdr, Txt, post, has, h1, ?_, ?_, ?_⟩
  · rw [answersLoop_append_ok pf pre _ m h1]; exact h2
  · intro hname
    rw [h3]
    exact answersLoop_simple_single_err pf Hdr Txt _ hname h2
  · intro hname
    rw [answersLoop_servers_single pf Hdr Txt _ hname] at h2 h3
    obtain ⟨t1, str, t2, hts, k1, k2, k3⟩ := serversLoop_error_split pf Txt _ h2
    refine ⟨t1, str, t2, hts, ?_, ?_, ?_⟩
    · rw [answersLoop_append_ok pf pre _ m h1, answersLoop_servers_single pf Hdr t1 _ hname]
      exact k1
    · rw [answersLoop_append_ok pf pre _ m h1,
        answersLoop_servers_single pf Hdr (t1 ++ [str]) _ hname]
      exact k2
    · rw [h3, answersLoop_append_ok pf pre _ m h1,
        answersLoop_servers_single pf Hdr t1 _ hname]
      exact k3

/-- C6 amended, at the reply of the counterexample: an error is returned there. -/
theorem processResponse_error_keeps_earlier_witness :
    (processResponse decimalParse
        ⟨⟨0, true⟩, [], [.TXT ⟨"hits.bind."⟩ ["5"], .TXT ⟨"servers.bind."⟩ ["a 1 2", "bad"]]⟩
        "servers.bind." GoMap.empty).err ≠ none
      ∧ ∃ pre Hdr Txt post,
        [dns.RR.TXT ⟨"hits.bind."⟩ ["5"], .TXT ⟨"servers.bind."⟩ ["a 1 2", "bad"]]
          = pre ++ .TXT Hdr Txt :: post
        ∧ (processResponse decimalParse ⟨⟨0, true⟩, [], pre ++ [.TXT Hdr Txt]⟩
            "servers.bind." GoMap.empty).err ≠ none :=
  ⟨by decide,
    by
      obtain ⟨pre, Hdr, Txt, post, h0, _, h2, _⟩ :=
        processResponse_error_keeps_earlier decimalParse
          ⟨⟨0, true⟩, [], [.TXT ⟨"hits.bind."⟩ ["5"], .TXT ⟨"servers.bind."⟩ ["a 1 2", "bad"]]⟩
          "servers.bind." GoMap.empty (by decide)
      exact ⟨pre, Hdr, Txt, post, h0, h2⟩⟩

/-! ## Lemmas on the metric loop of Gather -/

/-- One turn of the metric loop whose exchange fails. -/
theorem gatherLoop_cons_exchange_error (pf : String → Except E F) (w : World σ E C F)
    (d : Dnsmasq C) (n : String) (rest : List String) (s s2 : σ) (fields : FieldMap F)
    (log : List (Exchanged E)) (e : E)
    (hx : w.Exchange d.c ⟨⟨(w.Id s).1, true⟩, [question n], []⟩ d.Server (w.Id s).2
      = (.error e, s2)) :
    gatherLoop pf w d (n :: rest) s fields log
      = ⟨some (.external e), s2, fields,
          log ++ [⟨⟨⟨(w.Id s).1, true⟩, [question n], []⟩, d.Server, .error e⟩]⟩ := by
  rw [gatherLoop]
  simp only [hx]

/-- One turn of the metric loop whose reply fails to parse. -/
theorem gatherLoop_cons_parse_error (pf : String → Except E F) (w : World σ E C F)
    (d : Dnsmasq C) (n : String) (rest : List String) (s s2 : σ) (fields fields1 : FieldMap F)
    (log : List (Exchanged E)) (resp : dns.Msg) (e : Error E)
    (hx : w.Exchange d.c ⟨⟨(w.Id s).1, true⟩, [question n], []⟩ d.Server (w.Id s).2
      = (.ok resp, s2))
    (hp : processResponse pf resp n fields = ⟨some e, fields1⟩) :
    gatherLoop pf w d (n :: rest) s fields log
      = ⟨some e, s2, fields1,
          log ++ [⟨⟨⟨(w.Id s).1, true⟩, [question n], []⟩, d.Server, .ok resp⟩]⟩ := by
  rw [gatherLoop]
  simp only [hx, hp]

/-- One turn of the metric loop that succeeds. -/
theorem gatherLoop_cons_ok (pf : String → Except E F) (w : World σ E C F)
    (d : Dnsmasq C) (n : String) (rest : List String) (s s2 : σ) (fields fields1 : FieldMap F)
    (log : List (Exchanged E)) (resp : dns.Msg)
    (hx : w.Exchange d.c ⟨⟨(w.Id s).1, true⟩, [question n], []⟩ d.Server (w.Id s).2
      = (.ok resp, s2))
    (hp : processResponse pf resp n fields = ⟨none, fields1⟩) :
    gatherLoop pf w d (n :: rest) s fields log
      = gatherLoop pf w d rest s2 fields1
          (log ++ [⟨⟨⟨(w.Id s).1, true⟩, [question n], []⟩, d.Server, .ok resp⟩]) := by
  rw [gatherLoop]
  simp only [hx, hp]

/-- The three ways one turn of the metric loop can go. -/
theorem gatherLoop_cons_cases (pf : String → Except E F) (w : World σ E C F)
    (d : Dnsmasq C) (n : String) (s : σ) (fields : FieldMap F) :
    (∃ e s2, w.Exchange d.c ⟨⟨(w.Id s).1, true⟩, [question n], []⟩ d.Server (w.Id s).2
        = (.error e, s2))
      ∨ (∃ resp s2 e fields1,
          w.Exchange d.c ⟨⟨(w.Id s).1, true⟩, [question n], []⟩ d.Server (w.Id s).2
            = (.ok resp, s2)
          ∧ processResponse pf resp n fields = ⟨some e, fields1⟩)
      ∨ (∃ resp s2 fields1,
          w.Exchange d.c ⟨⟨(w.Id s).1, true⟩, [question n], []⟩ d.Server (w.Id s).2
            = (.ok resp, s2)
          ∧ processResponse pf resp n fields = ⟨none, fields1⟩) := by
  rcases hx : w.Exchange d.c ⟨⟨(w.Id s).1, true⟩, [question n], []⟩ d.Server (w.Id s).2
    with ⟨r, s2⟩
  cases r with
  | error e => exact Or.inl ⟨e, s2, rfl⟩
  | ok resp =>
    rcases hp : processResponse pf resp n fields with ⟨err, fields1⟩
    cases err with
    | some e => exact Or.inr (Or.inl ⟨resp, s2, e, fields1, rfl, hp⟩)
    | none => exact Or.inr (Or.inr ⟨resp, s2, fields1, rfl, hp⟩)

/-- The cycle when the hostname lookup fails. -/
theorem Gather_of_hostname_error (pf : String → Except E F) (w : World σ E C F)
    (d : Dnsmasq C) (s s1 : σ) (e : E) (hh : w.Hostname s = (.error e, s1)) :
    d.Gather pf w s
      = ⟨.returned (some (.Errorf "Failed to get hostname:" [.err e])),
          d.setDefaultValues, s1, [], []⟩ := by
  simp only [Dnsmasq.Gather, hh]

/-- The cycle when the hostname lookup succeeds and the metric loop fails. -/
theorem Gather_of_loop_error (pf : String → Except E F) (w : World σ E C F)
    (d : Dnsmasq C) (s s1 : σ) (hostname : String) (e : Error E)
    (hh : w.Hostname s = (.ok hostname, s1))
    (hl : (gatherLoop pf w d.setDefaultValues metrics s1 GoMap.empty []).err = some e) :
    d.Gather pf w s
      = ⟨.returned (some e), d.setDefaultValues,
          (gatherLoop pf w d.setDefaultValues metrics s1 GoMap.empty []).world,
          (gatherLoop pf w d.setDefaultValues metrics s1 GoMap.empty []).exchanged, []⟩ := by
  simp only [Dnsmasq.Gather, hh]
  cases hsp : strings.Split hostname '.' with
  | nil => exact absurd hsp (strings.splitGo_ne_nil _ _ _)
  | cons host tl => simp only [hl]

/-- The cycle when the hostname lookup and the metric loop succeed. -/
theorem Gather_of_loop_ok (pf : String → Except E F) (w : World σ E C F)
    (d : Dnsmasq C) (s s1 : σ) (hostname host : String) (tl : List String)
    (hh : w.Hostname s = (.ok hostname, s1))
    (hsp : strings.Split hostname '.' = host :: tl)
    (hl : (gatherLoop pf w d.setDefaultValues metrics s1 GoMap.empty []).err = none) :
    d.Gather pf w s
      = ⟨.returned none, d.setDefaultValues,
          w.AddFields "dnsmasq"
            (gatherLoop pf w d.setDefaultValues metrics s1 GoMap.empty []).fields
            ((GoMap.empty.set "server" d.setDefaultValues.Server).set "host" host)
            (gatherLoop pf w d.setDefaultValues metrics s1 GoMap.empty []).world,
          (gatherLoop pf w d.setDefaultValues metrics s1 GoMap.empty []).exchanged,
          [⟨"dnsmasq", (gatherLoop pf w d.setDefaultValues metrics s1 GoMap.empty []).fields,
            (GoMap.empty.set "server" d.setDefaultValues.Server).set "host" host⟩]⟩ := by
  simp only [Dnsmasq.Gather, hh, hsp, hl]

/-- A reply whose only answer is a simple record with one value that parses. -/
theorem processResponse_simple_of_answer (pf : String → Except E F) (resp : dns.Msg)
    (n str key metricName : String) (tl : List String) (v : F) (m : FieldMap F)
    (ha : resp.Answer = [.TXT ⟨n⟩ [str]]) (hname : n ≠ "servers.bind.")
    (hs : pf str = .ok v) (hsplit : strings.Split n '.' = key :: tl) :
    processResponse pf resp metricName m = ⟨none, m.set key (.float64 v)⟩ := by
  simp only [processResponse, ha]
  exact answersLoop_simple_ok pf ⟨n⟩ str key tl v m hname hs hsplit

/-- A reply whose only answer is a `servers.bind.` record with one well-formed
value. -/
theorem processResponse_servers_of_answer (pf : String → Except E F) (resp : dns.Msg)
    (str l a b metricName : String) (q f : F) (m : FieldMap F)
    (hans : resp.Answer = [.TXT ⟨"servers.bind."⟩ [str]])
    (hstr : strings.Fields str = [l, a, b]) (ha : pf a = .ok q) (hb : pf b = .ok f) :
    processResponse pf resp metricName m
      = ⟨none, (m.set "queries" (.float64 q)).set "queries_failed" (.float64 f)⟩ := by
  simp only [processResponse, hans]
  rw [answersLoop_servers_single pf _ _ _ rfl, serversLoop_cons_ok pf str l a b q f [] m hstr ha hb]
  simp [serversLoop]

/-- C10: setDefaultValues makes an empty Server "127.0.0.1:53", leaves every
non-empty Server as it is, never changes the client `c`, and applied twice
gives what it gives applied once. -/
theorem setDefaultValues_resolves (d : Dnsmasq C) :
    (d.Server = "" → d.setDefaultValues.Server = "127.0.0.1:53")
      ∧ (d.Server ≠ "" → d.setDefaultValues.Server = d.Server)
      ∧ d.setDefaultValues.c = d.c
      ∧ d.setDefaultValues.setDefaultValues = d.setDefaultValues := by
  unfold Dnsmasq.setDefaultValues
  by_cases h : d.Server = ""
  · simp [h]
  · simp [h]

/-- C11, refuted as stated: on the reply made of a `servers.bind.` record with
the one well-formed value "a 1 2" and a well-formed record named
`queries.bind.` with the value "7", processResponse returns no error, and the
map holds "queries" = 7, not the 1 of the last `servers.bind.` value. -/
theorem processResponse_servers_last_counterexample :
    (processResponse decimalParse
        ⟨⟨0, true⟩, [], [.TXT ⟨"servers.bind."⟩ ["a 1 2"], .TXT ⟨"queries.bind."⟩ ["7"]]⟩
        "servers.bind." GoMap.empty).err = none
      ∧ strings.Fields "a 1 2" = ["a", "1", "2"]
      ∧ decimalParse "1" = .ok 1 ∧ decimalParse "2" = .ok 2
      ∧ (processResponse decimalParse
          ⟨⟨0, true⟩, [], [.TXT ⟨"servers.bind."⟩ ["a 1 2"], .TXT ⟨"queries.bind."⟩ ["7"]]⟩
          "servers.bind." GoMap.empty).fields "queries" = some (.float64 7)
      ∧ (processResponse decimalParse
          ⟨⟨0, true⟩, [], [.TXT ⟨"servers.bind."⟩ ["a 1 2"], .TXT ⟨"queries.bind."⟩ ["7"]]⟩
          "servers.bind." GoMap.empty).fields "queries" ≠ some (.float64 1) :=
  ⟨by decide, by decide, rfl, rfl, by decide, by decide⟩

/-- C11, amended: the last well-formed value of the `servers.bind.` records
wins.  The reply holds a `servers.bind.` record whose last text value is
"l a b" with `a`, `b` parsing as `q`, `f`; every earlier `servers.bind.` value
is well formed, every other TXT record holds one value that parses; after
that record no `servers.bind.` record holds a text value and no other TXT
record has "queries" or "queries_failed" as the first segment of its name.
Then processResponse returns no error and the map has "queries" = `q` and
"queries_failed" = `f`, whatever the earlier values were. -/
theorem processResponse_servers_last_wins (pf : String → Except E F)
    (pre post : List dns.RR) (t1 : List String) (str l a b metricName : String) (q f : F)
    (m : FieldMap F) (hdr : dns.MsgHdr) (qs : List dns.Question)
    (hvalues : ∀ Hdr Txt, dns.RR.TXT Hdr Txt ∈ pre → Hdr.Name = "servers.bind." →
      ∀ t ∈ Txt, ∃ l a b q f, strings.Fields t = [l, a, b] ∧ pf a = .ok q ∧ pf b = .ok f)
    (ht1 : ∀ t ∈ t1, ∃ l a b q f,
      strings.Fields t = [l, a, b] ∧ pf a = .ok q ∧ pf b = .ok f)
    (hstr : strings.Fields str = [l, a, b]) (ha : pf a = .ok q) (hb : pf b = .ok f)
    (hsimple : ∀ Hdr Txt, dns.RR.TXT Hdr Txt ∈ pre ++ post → Hdr.Name ≠ "servers.bind." →
      ∃ s v, Txt = [s] ∧ pf s = .ok v)
    (hlast : ∀ Hdr Txt, dns.RR.TXT Hdr Txt ∈ post → Hdr.Name = "servers.bind." → Txt = [])
    (hkeys : ∀ Hdr Txt, dns.RR.TXT Hdr Txt ∈ post → Hdr.Name ≠ "servers.bind." →
      (strings.Split Hdr.Name '.').head? ≠ some "queries"
        ∧ (strings.Split Hdr.Name '.').head? ≠ some "queries_failed") :
    (processResponse pf
        ⟨hdr, qs, pre ++ .TXT ⟨"servers.bind."⟩ (t1 ++ [str]) :: post⟩ metricName m).err = none
      ∧ (processResponse pf
          ⟨hdr, qs, pre ++ .TXT ⟨"servers.bind."⟩ (t1 ++ [str]) :: post⟩ metricName m).fields
          "queries" = some (.float64 q)
      ∧ (processResponse pf
          ⟨hdr, qs, pre ++ .TXT ⟨"servers.bind."⟩ (t1 ++ [str]) :: post⟩ metricName m).fields
          "queries_failed" = some (.float64 f) := by
  simp only [processResponse]
  have hpre : (answersLoop pf pre m).err = none := by
    apply answersLoop_ok_of_each
    intro r hr
    exact answersLoop_single_ok_of_wf pf r _
      (fun H T e hn => hvalues H T (e ▸ hr) hn)
      (fun H T e hn => hsimple H T (List.mem_append_left _ (e ▸ hr)) hn)
  have hpost : ∀ M : FieldMap F, (answersLoop pf post M).err = none := by
    intro M
    apply answersLoop_ok_of_each
    intro r hr
    refine answersLoop_single_ok_of_wf pf r _ (fun H T e hn => ?_)
      (fun H T e hn => hsimple H T (List.mem_append_right _ (e ▸ hr)) hn)
    rw [hlast H T (e ▸ hr) hn]
    simp
  have hrec : ∀ M : FieldMap F,
      answersLoop pf [.TXT ⟨"servers.bind."⟩ (t1 ++ [str])] M
        = ⟨none, ((serversLoop pf t1 M).fields.set "queries" (.float64 q)).set
            "queries_failed" (.float64 f)⟩ := by
    intro M
    rw [answersLoop_servers_single pf _ _ M rfl,
      serversLoop_append_ok pf t1 [str] M (serversLoop_wellformed pf t1 M ht1),
      serversLoop_cons_ok pf str l a b q f [] _ hstr ha hb]
    simp [serversLoop]
  have hall : answersLoop pf (pre ++ .TXT ⟨"servers.bind."⟩ (t1 ++ [str]) :: post) m
      = answersLoop pf post
          (((serversLoop pf t1 (answersLoop pf pre m).fields).fields.set "queries"
            (.float64 q)).set "queries_failed" (.float64 f)) := by
    rw [answersLoop_append_ok pf pre _ m hpre]
    rcases answersLoop_cons pf (.TXT ⟨"servers.bind."⟩ (t1 ++ [str])) post
        (answersLoop pf pre m).fields with ⟨_, e⟩ | ⟨hne, _⟩
    · rw [e, hrec]
    · rw [hrec] at hne
      exact absurd rfl hne
  rw [hall]
  refine ⟨hpost _, ?_, ?_⟩
  · rw [answersLoop_frame pf post _ "queries" (fun H T hm hn => Or.inl (hlast H T hm hn))
      (fun H T hm hn => (hkeys H T hm hn).1)]
    simp [GoMap.set]
  · rw [answersLoop_frame pf post _ "queries_failed"
      (fun H T hm hn => Or.inl (hlast H T hm hn)) (fun H T hm hn => (hkeys H T hm hn).2)]
    simp [GoMap.set]

/-- C11 amended, at a reply with two `servers.bind.` records, three values in
all, between records of other names: the third value wins. -/
theorem processResponse_servers_last_wins_witness :
    strings.Fields "c 5 6" = ["c", "5", "6"] ∧ decimalParse "5" = .ok 5
      ∧ decimalParse "6" = .ok 6
      ∧ (processResponse decimalParse
          ⟨⟨0, true⟩, [],
            [.TXT ⟨"servers.bind."⟩ ["a 1 2"], .TXT ⟨"hits.bind."⟩ ["9"]]
              ++ .TXT ⟨"servers.bind."⟩ (["b 3 4"] ++ ["c 5 6"])
              :: [.TXT ⟨"auth.bind."⟩ ["0"], .other ⟨"x."⟩]⟩
          "servers.bind." GoMap.empty).fields "queries" = some (.float64 5) :=
  ⟨by decide, rfl, rfl,
    (processResponse_servers_last_wins decimalParse
      [.TXT ⟨"servers.bind."⟩ ["a 1 2"], .TXT ⟨"hits.bind."⟩ ["9"]]
      [.TXT ⟨"auth.bind."⟩ ["0"], .other ⟨"x."⟩] ["b 3 4"] "c 5 6" "c" "5" "6"
      "servers.bind." 5 6 GoMap.empty ⟨0, true⟩ []
      (fun H T hm hn t ht => by
        simp only [List.mem_cons, List.mem_singleton, List.not_mem_nil, or_false,
          dns.RR.TXT.injEq] at hm
        rcases hm with ⟨rfl, rfl⟩ | ⟨rfl, rfl⟩
        · have e : t = "a 1 2" := by simpa using ht
          subst e
          exact ⟨"a", "1", "2", 1, 2, by decide, rfl, rfl⟩
        · exact absurd hn (by decide))
      (fun t ht => by
        have e : t = "b 3 4" := by simpa using ht
        subst e
        exact ⟨"b", "3", "4", 3, 4, by decide, rfl, rfl⟩)
      (by decide) rfl rfl
      (fun H T hm hn => by
        simp only [List.cons_append, List.nil_append, List.mem_cons, List.mem_singleton,
          List.not_mem_nil, or_false, dns.RR.TXT.injEq, reduceCtorEq, false_or, or_false] at hm
        rcases hm with ⟨rfl, rfl⟩ | ⟨rfl, rfl⟩ | ⟨rfl, rfl⟩
        · exact absurd rfl hn
        · exact ⟨"9", 9, rfl, rfl⟩
        · exact ⟨"0", 0, rfl, rfl⟩)
      (fun H T hm hn => by
        simp only [List.mem_cons, List.mem_singleton, List.not_mem_nil, or_false,
          dns.RR.TXT.injEq, reduceCtorEq] at hm
        rcases hm with ⟨rfl, rfl⟩
        exact absurd hn (by decide))
      (fun H T hm hn => by
        simp only [List.mem_cons, List.mem_singleton, List.not_mem_nil, or_false,
          dns.RR.TXT.injEq, reduceCtorEq] at hm
        rcases hm with ⟨rfl, rfl⟩
        exact ⟨by decide, by decide⟩)).2.1⟩

/-- C12: a value that does not parse is a parse error.  After answers that
are processed without error: (a) a `servers.bind.` record whose text value
`str`, after well-formed values, has exactly three tokens of which the second
or the third does not parse makes processResponse return that parse error,
with the field map as it stood before `str` (so `str` writes neither "queries"
nor "queries_failed"); (b) a TXT record of any other name with exactly one
text value that does not parse makes processResponse return that parse error,
with the field map as the earlier answers left it. -/
theorem processResponse_parse_error (pf : String → Except E F) (pre post : List dns.RR)
    (metricName : String) (m : FieldMap F) (hdr : dns.MsgHdr) (qs : List dns.Question)
    (hpre : (processResponse pf ⟨hdr, qs, pre⟩ metricName m).err = none) :
    (∀ (t1 t2 : List String) (str l a b : String),
        (∀ t ∈ t1, ∃ l a b q f,
          strings.Fields t = [l, a, b] ∧ pf a = .ok q ∧ pf b = .ok f) →
        strings.Fields str = [l, a, b] →
        ((∃ e, pf a = .error e) ∨ (∃ e, pf b = .error e)) →
        ∃ e, (pf a = .error e ∨ pf b = .error e)
          ∧ processResponse pf
              ⟨hdr, qs, pre ++ .TXT ⟨"servers.bind."⟩ (t1 ++ str :: t2) :: post⟩ metricName m
            = ⟨some (.external e),
                (processResponse pf ⟨hdr, qs, pre ++ [.TXT ⟨"servers.bind."⟩ t1]⟩
                  metricName m).fields⟩)
      ∧ (∀ (Hdr : dns.RR_Header) (str : String) (e : E),
        Hdr.Name ≠ "servers.bind." → pf str = .error e →
        processResponse pf ⟨hdr, qs, pre ++ .TXT Hdr [str] :: post⟩ metricName m
          = ⟨some (.external e), (processResponse pf ⟨hdr, qs, pre⟩ metricName m).fields⟩) := by
  simp only [processResponse] at hpre ⊢
  constructor
  · intro t1 t2 str l a b ht1 hstr hbad
    obtain ⟨e, he, hor⟩ :=
      serversLoop_cons_parse pf str l a b t2
        (serversLoop pf t1 (answersLoop pf pre m).fields).fields hstr hbad
    refine ⟨e, hor, ?_⟩
    have hone : answersLoop pf [.TXT ⟨"servers.bind."⟩ (t1 ++ str :: t2)]
        (answersLoop pf pre m).fields
        = ⟨some (.external e), (serversLoop pf t1 (answersLoop pf pre m).fields).fields⟩ := by
      rw [answersLoop_servers_single pf _ _ _ rfl,
        serversLoop_append_ok pf t1 _ _ (serversLoop_wellformed pf t1 _ ht1), he]
    rw [answersLoop_append_ok pf pre _ m hpre, answersLoop_append_ok pf pre _ m hpre,
      answersLoop_servers_single pf _ t1 _ rfl]
    rcases answersLoop_cons pf (.TXT ⟨"servers.bind."⟩ (t1 ++ str :: t2)) post
        (answersLoop pf pre m).fields with ⟨hn, _⟩ | ⟨_, e1⟩
    · rw [hone] at hn; cases hn
    · rw [e1, hone]
  · intro Hdr str e hname hs
    have hone : answersLoop pf [.TXT Hdr [str]] (answersLoop pf pre m).fields
        = ⟨some (.external e), (answersLoop pf pre m).fields⟩ := by
      simp [answersLoop, hname, hs]
    rw [answersLoop_append_ok pf pre _ m hpre]
    rcases answersLoop_cons pf (.TXT Hdr [str]) post (answersLoop pf pre m).fields
      with ⟨hn, _⟩ | ⟨_, e1⟩
    · rw [hone] at hn; cases hn
    · rw [e1, hone]

/-- C12, after a well-formed `hits.bind.` record: a `servers.bind.` value whose
third token alone is bad, after a good value, leaves "queries" at the good
value, and a `misses.bind.` record with the value "x" sets no key. -/
theorem processResponse_parse_error_witness :
    (processResponse decimalParse ⟨⟨0, true⟩, [], [.TXT ⟨"hits.bind."⟩ ["5"]]⟩ "hits.bind."
        GoMap.empty).err = none
      ∧ (∃ e, (decimalParse "7" = .error e ∨ decimalParse "x" = .error e)
          ∧ processResponse decimalParse
              ⟨⟨0, true⟩, [], [.TXT ⟨"hits.bind."⟩ ["5"]]
                ++ .TXT ⟨"servers.bind."⟩ (["a 1 2"] ++ "b 7 x" :: ["c 3 4"]) :: []⟩
              "hits.bind." GoMap.empty
            = ⟨some (.external e),
                (processResponse decimalParse
                  ⟨⟨0, true⟩, [], [.TXT ⟨"hits.bind."⟩ ["5"]]
                    ++ [.TXT ⟨"servers.bind."⟩ ["a 1 2"]]⟩ "hits.bind." GoMap.empty).fields⟩)
      ∧ processResponse decimalParse
          ⟨⟨0, true⟩, [], [.TXT ⟨"hits.bind."⟩ ["5"]] ++ .TXT ⟨"misses.bind."⟩ ["x"] :: []⟩
          "hits.bind." GoMap.empty
        = ⟨some (.external "x"),
            (processResponse decimalParse ⟨⟨0, true⟩, [], [.TXT ⟨"hits.bind."⟩ ["5"]]⟩
              "hits.bind." GoMap.empty).fields⟩ :=
  ⟨by decide,
    (processResponse_parse_error decimalParse [.TXT ⟨"hits.bind."⟩ ["5"]] [] "hits.bind."
      GoMap.empty ⟨0, true⟩ [] (by decide)).1 ["a 1 2"] ["c 3 4"] "b 7 x" "b" "7" "x"
      (fun t ht => by
        have e : t = "a 1 2" := by simpa using ht
        subst e
        exact ⟨"a", "1", "2", 1, 2, by decide, rfl, rfl⟩)
      (by decide) (Or.inr ⟨"x", rfl⟩),
    (processResponse_parse_error decimalParse [.TXT ⟨"hits.bind."⟩ ["5"]] [] "hits.bind."
      GoMap.empty ⟨0, true⟩ [] (by decide)).2 ⟨"misses.bind."⟩ "x" "x" (by decide) rfl⟩

/-- C16: the frame of processResponse.  Whether it returns an error or not,
a key that is neither "queries" nor "queries_failed" nor the first segment of
the name of a TXT answer not named `servers.bind.` has the same presence and
value in the field map afterwards as before; and no key is ever removed. -/
theorem processResponse_frame (pf : String → Except E F) (response : dns.Msg)
    (metricName : String) (m : FieldMap F) :
    (∀ k, k ≠ "queries" → k ≠ "queries_failed" →
        (∀ Hdr Txt, dns.RR.TXT Hdr Txt ∈ response.Answer → Hdr.Name ≠ "servers.bind." →
          (strings.Split Hdr.Name '.').head? ≠ some k) →
        (processResponse pf response metricName m).fields k = m k)
      ∧ (∀ k, m k ≠ none → (processResponse pf response metricName m).fields k ≠ none) := by
  simp only [processResponse]
  exact ⟨fun k h1 h2 hq =>
      answersLoop_frame pf response.Answer m k (fun _ _ _ _ => Or.inr ⟨h1, h2⟩) hq,
    fun k hm => answersLoop_keeps pf response.Answer m k hm⟩

/-- C16, at a reply that fails after writing "hits" and "queries", on a map
that holds "uptime": the key "uptime" keeps its value. -/
theorem processResponse_frame_witness :
    (processResponse decimalParse
        ⟨⟨0, true⟩, [], [.TXT ⟨"hits.bind."⟩ ["5"], .TXT ⟨"servers.bind."⟩ ["a 1 2", "bad"]]⟩
        "hits.bind." (GoMap.empty.set "uptime" (.float64 77))).err ≠ none
      ∧ (processResponse decimalParse
          ⟨⟨0, true⟩, [], [.TXT ⟨"hits.bind."⟩ ["5"], .TXT ⟨"servers.bind."⟩ ["a 1 2", "bad"]]⟩
          "hits.bind." (GoMap.empty.set "uptime" (.float64 77))).fields "uptime"
        = (GoMap.empty.set "uptime" (Value.float64 77)) "uptime" :=
  ⟨by decide,
    (processResponse_frame decimalParse
      ⟨⟨0, true⟩, [], [.TXT ⟨"hits.bind."⟩ ["5"], .TXT ⟨"servers.bind."⟩ ["a 1 2", "bad"]]⟩
      "hits.bind." (GoMap.empty.set "uptime" (.float64 77))).1 "uptime" (by decide) (by decide)
      (fun H T hm hn => by
        simp only [List.mem_cons, List.mem_singleton, List.not_mem_nil, or_false,
          dns.RR.TXT.injEq] at hm
        rcases hm with ⟨rfl, rfl⟩ | ⟨rfl, rfl⟩
        · decide
        · exact absurd rfl hn)⟩

/-- C17: processResponse does not depend on its metricName argument: for any
two metric names it returns the same error and the same field map.  The
branch and the key come from each record's own name: a `servers.bind.` record
is parsed as composite under any metric name, and a record named `a.b.` in the
reply to `hits.bind.` sets the key "a". -/
theorem processResponse_metricName_irrelevant (pf : String → Except E F)
    (response : dns.Msg) (m : FieldMap F) (name1 name2 : String) :
    processResponse pf response name1 m = processResponse pf response name2 m
      ∧ (∀ (str l a b : String) (q f : F) (hdr : dns.MsgHdr) (qs : List dns.Question),
          strings.Fields str = [l, a, b] → pf a = .ok q → pf b = .ok f →
          processResponse pf ⟨hdr, qs, [.TXT ⟨"servers.bind."⟩ [str]]⟩ name1 m
            = ⟨none, (m.set "queries" (.float64 q)).set "queries_failed" (.float64 f)⟩)
      ∧ (∀ (str : String) (v : F) (hdr : dns.MsgHdr) (qs : List dns.Question),
          pf str = .ok v →
          processResponse pf ⟨hdr, qs, [.TXT ⟨"a.b."⟩ [str]]⟩ "hits.bind." m
            = ⟨none, m.set "a" (.float64 v)⟩) := by
  refine ⟨rfl, ?_, ?_⟩
  · intro str l a b q f hdr qs hstr ha hb
    exact processResponse_servers_of_answer pf _ str l a b name1 q f m rfl hstr ha hb
  · intro str v hdr qs hv
    exact processResponse_simple_of_answer pf _ "a.b." str "a" "hits.bind." ["b", ""] v m rfl
      (by decide) hv (by decide)

/-- C17, at the two metric names `hits.bind.` and `auth.bind.` and a reply
with a `servers.bind.` record. -/
theorem processResponse_metricName_irrelevant_witness :
    processResponse decimalParse ⟨⟨0, true⟩, [], [.TXT ⟨"servers.bind."⟩ ["a 1 2"]]⟩
        "hits.bind." GoMap.empty
      = processResponse decimalParse ⟨⟨0, true⟩, [], [.TXT ⟨"servers.bind."⟩ ["a 1 2"]]⟩
          "auth.bind." GoMap.empty
      ∧ processResponse decimalParse ⟨⟨0, true⟩, [], [.TXT ⟨"servers.bind."⟩ ["a 1 2"]]⟩
          "hits.bind." GoMap.empty
        = ⟨none, (GoMap.empty.set "queries" (.float64 1)).set "queries_failed" (.float64 2)⟩ :=
  ⟨(processResponse_metricName_irrelevant decimalParse
      ⟨⟨0, true⟩, [], [.TXT ⟨"servers.bind."⟩ ["a 1 2"]]⟩ GoMap.empty "hits.bind."
      "auth.bind.").1,
    (processResponse_metricName_irrelevant decimalParse
      ⟨⟨0, true⟩, [], [.TXT ⟨"servers.bind."⟩ ["a 1 2"]]⟩ GoMap.empty "hits.bind."
      "auth.bind.").2.1 "a 1 2" "a" "1" "2" 1 2 ⟨0, true⟩ [] (by decide) rfl rfl⟩

/-! ## The collector, continued: reruns, tags, hostname failure -/

theorem setDefaultValues_c (d : Dnsmasq C) : d.setDefaultValues.c = d.c := by
  unfold Dnsmasq.setDefaultValues
  split <;> rfl

theorem setDefaultValues_idem (d : Dnsmasq C) :
    d.setDefaultValues.setDefaultValues = d.setDefaultValues := by
  unfold Dnsmasq.setDefaultValues
  by_cases h : d.Server = ""
  · simp [h]
  · simp [h]

/-- The plugin value a cycle leaves is the one after defaulting. -/
theorem Gather_d (pf : String → Except E F) (w : World σ E C F) (d : Dnsmasq C) (s : σ) :
    (d.Gather pf w s).d = d.setDefaultValues := by
  rcases hh : w.Hostname s with ⟨r, s1⟩
  cases r with
  | error e => rw [Gather_of_hostname_error pf w d s s1 e hh]
  | ok hostname =>
    cases hl : (gatherLoop pf w d.setDefaultValues metrics s1 GoMap.empty []).err with
    | some e => rw [Gather_of_loop_error pf w d s s1 hostname e hh hl]
    | none =>
      cases hsp : strings.Split hostname '.' with
      | nil => exact absurd hsp (strings.splitGo_ne_nil _ _ _)
      | cons host tl => rw [Gather_of_loop_ok pf w d s s1 hostname host tl hh hsp hl]

/-- With an exchange whose answers depend only on the metric name and the
address, the error and the field map of the metric loop do not depend on the
world state it starts from, nor on the log. -/
theorem gatherLoop_rerun (pf : String → Except E F) (w : World σ E C F) (d : Dnsmasq C)
    (ex : String → String → Except E (List dns.RR))
    (hX : ∀ (id : Nat) (n server : String) (s : σ),
      ((w.Exchange d.c ⟨⟨id, true⟩, [question n], []⟩ server s).1).map (fun r => r.Answer)
        = ex n server)
    (names : List String) (s s' : σ) (fields : FieldMap F) (log log' : List (Exchanged E)) :
    (gatherLoop pf w d names s fields log).err = (gatherLoop pf w d names s' fields log').err
      ∧ (gatherLoop pf w d names s fields log).fields
        = (gatherLoop pf w d names s' fields log').fields := by
  induction names generalizing s s' fields log log' with
  | nil => simp [gatherLoop]
  | cons n names ih =>
    have h1 := hX (w.Id s).1 n d.Server (w.Id s).2
    have h2 := hX (w.Id s').1 n d.Server (w.Id s').2
    have h12 := h1.trans h2.symm
    rcases gatherLoop_cons_cases pf w d n s fields with
      ⟨e, s2, hx⟩ | ⟨resp, s2, e, fields1, hx, hp⟩ | ⟨resp, s2, fields1, hx, hp⟩ <;>
    rcases gatherLoop_cons_cases pf w d n s' fields with
      ⟨e', s2', hx'⟩ | ⟨resp', s2', e', fields1', hx', hp'⟩ | ⟨resp', s2', fields1', hx', hp'⟩ <;>
    rw [hx, hx'] at h12 <;>
    simp only [Except.map, reduceCtorEq, Except.error.injEq, Except.ok.injEq] at h12
    · subst h12
      rw [gatherLoop_cons_exchange_error pf w d n names s s2 fields log e hx,
        gatherLoop_cons_exchange_error pf w d n names s' s2' fields log' e hx']
      exact ⟨rfl, rfl⟩
    · have hpp : processResponse pf resp n fields = processResponse pf resp' n fields := by
        simp only [processResponse, h12]
      rw [hp, hp'] at hpp
      cases hpp
      rw [gatherLoop_cons_parse_error pf w d n names s s2 fields fields1 log resp e hx hp,
        gatherLoop_cons_parse_error pf w d n names s' s2' fields fields1 log' resp' e hx' hp']
      exact ⟨rfl, rfl⟩
    · have hpp : processResponse pf resp n fields = processResponse pf resp' n fields := by
        simp only [processResponse, h12]
      rw [hp, hp'] at hpp
      cases hpp
    · have hpp : processResponse pf resp n fields = processResponse pf resp' n fields := by
        simp only [processResponse, h12]
      rw [hp, hp'] at hpp
      cases hpp
    · have hpp : processResponse pf resp n fields = processResponse pf resp' n fields := by
        simp only [processResponse, h12]
      rw [hp, hp'] at hpp
      cases hpp
      rw [gatherLoop_cons_ok pf w d n names s s2 fields fields1 log resp hx hp,
        gatherLoop_cons_ok pf w d n names s' s2' fields fields1 log' resp' hx' hp']
      exact ih _ _ _ _ _

/-- C13: re-running a cycle is deterministic.  When the hostname lookup gives
the same result in every world state and the answers the exchange returns are
a function of the metric name and the address, a second run of Gather on the
plugin value the first run left (from the world the first run left, or any
other) ends with the same status and makes the same sink calls as the first,
though the first run may have rewritten Server. -/
theorem Gather_rerun (pf : String → Except E F) (w : World σ E C F) (d : Dnsmasq C)
    (s s2 : σ) (hres : Except E String)
    (ex : String → String → Except E (List dns.RR))
    (hH : ∀ s, (w.Hostname s).1 = hres)
    (hX : ∀ (id : Nat) (n server : String) (s : σ),
      ((w.Exchange d.c ⟨⟨id, true⟩, [question n], []⟩ server s).1).map (fun r => r.Answer)
        = ex n server) :
    ((d.Gather pf w s).d.Gather pf w s2).status = (d.Gather pf w s).status
      ∧ ((d.Gather pf w s).d.Gather pf w s2).added = (d.Gather pf w s).added := by
  rw [Gather_d]
  have hX1 : ∀ (id : Nat) (n server : String) (s : σ),
      ((w.Exchange d.setDefaultValues.c ⟨⟨id, true⟩, [question n], []⟩ server s).1).map
        (fun r => r.Answer) = ex n server := by
    rw [setDefaultValues_c]; exact hX
  rcases hh : w.Hostname s with ⟨r, s1⟩
  rcases hh2 : w.Hostname s2 with ⟨r2, s3⟩
  have hr : r2 = r := by
    have a1 := hH s
    have a2 := hH s2
    rw [hh] at a1
    rw [hh2] at a2
    exact a2.trans a1.symm
  subst hr
  cases r2 with
  | error e =>
    rw [Gather_of_hostname_error pf w d s s1 e hh,
      Gather_of_hostname_error pf w d.setDefaultValues s2 s3 e hh2]
    exact ⟨rfl, rfl⟩
  | ok hostname =>
    obtain ⟨k1, k2⟩ := gatherLoop_rerun pf w d.setDefaultValues ex hX1 metrics s1 s3
      GoMap.empty [] []
    cases hl : (gatherLoop pf w d.setDefaultValues metrics s1 GoMap.empty []).err with
    | some e =>
      have hl2 := hl
      rw [k1, ← setDefaultValues_idem d] at hl2
      rw [Gather_of_loop_error pf w d s s1 hostname e hh hl,
        Gather_of_loop_error pf w d.setDefaultValues s2 s3 hostname e hh2 hl2]
      exact ⟨rfl, rfl⟩
    | none =>
      cases hsp : strings.Split hostname '.' with
      | nil => exact absurd hsp (strings.splitGo_ne_nil _ _ _)
      | cons host tl =>
        have hl2 := hl
        rw [k1, ← setDefaultValues_idem d] at hl2
        rw [Gather_of_loop_ok pf w d s s1 hostname host tl hh hsp hl,
          Gather_of_loop_ok pf w d.setDefaultValues s2 s3 hostname host tl hh2 hsp hl2]
        simp only [setDefaultValues_idem, k2, and_self]

/-- C13, in the sample world where no exchange fails, from an unset endpoint
that the first run rewrites: the second run, from the world the first left,
ends as the first did. -/
theorem Gather_rerun_witness :
    ((Dnsmasq.mk () "").Gather decimalParse (sampleWorld "") 0).d.Server = "127.0.0.1:53"
      ∧ ((Dnsmasq.mk () "").Gather decimalParse (sampleWorld "") 0).status = .returned none
      ∧ (((Dnsmasq.mk () "").Gather decimalParse (sampleWorld "") 0).d.Gather decimalParse
          (sampleWorld "")
          ((Dnsmasq.mk () "").Gather decimalParse (sampleWorld "") 0).world).status
        = ((Dnsmasq.mk () "").Gather decimalParse (sampleWorld "") 0).status
      ∧ (((Dnsmasq.mk () "").Gather decimalParse (sampleWorld "") 0).d.Gather decimalParse
          (sampleWorld "")
          ((Dnsmasq.mk () "").Gather decimalParse (sampleWorld "") 0).world).added
        = ((Dnsmasq.mk () "").Gather decimalParse (sampleWorld "") 0).added := by
  have h := Gather_rerun decimalParse (sampleWorld "") (Dnsmasq.mk () "") 0
    ((Dnsmasq.mk () "").Gather decimalParse (sampleWorld "") 0).world
    (.ok "box.example.org")
    (fun n _ =>
      if n = "" then .error "timeout"
      else .ok [.TXT ⟨n⟩ [if n = "servers.bind." then "127.0.0.1 42 1340" else "5"]])
    (fun _ => rfl)
    (fun id n server s => by
      by_cases hn : n = ""
      · simp [sampleWorld, question, Except.map, hn]
      · simp [sampleWorld, question, Except.map, hn])
  exact ⟨by decide, by decide, h.1, h.2⟩

/-- C15, refuted as stated: in the world whose hostname lookup fails with the
error "no hostname", the error Gather returns is not that error itself but a
value built by `fmt.Errorf`. -/
theorem Gather_hostname_error_counterexample :
    hostlessWorld.Hostname 0 = (.error "no hostname", 0)
      ∧ ((Dnsmasq.mk () "").Gather decimalParse hostlessWorld 0).status
        ≠ .returned (some (.external "no hostname"))
      ∧ ((Dnsmasq.mk () "").Gather decimalParse hostlessWorld 0).status
        = .returned (some (.Errorf "Failed to get hostname:" [.err "no hostname"])) :=
  ⟨rfl, by decide, by decide⟩

/-- C15, amended: when the hostname lookup fails with the error `e`, the cycle
is aborted at once, with no exchange and no call of the sink, and Gather
returns a non-nil error: not `e` itself but a new value built by `fmt.Errorf`
with `e` as its one operand and a format that starts with
"Failed to get hostname:". -/
theorem Gather_hostname_failure (pf : String → Except E F) (w : World σ E C F)
    (d : Dnsmasq C) (s s1 : σ) (e : E) (hh : w.Hostname s = (.error e, s1)) :
    (∃ rest, (d.Gather pf w s).status
        = .returned (some (.Errorf ("Failed to get hostname:" ++ rest) [.err e])))
      ∧ (d.Gather pf w s).status ≠ .returned (some (.external e))
      ∧ (d.Gather pf w s).exchanged = []
      ∧ (d.Gather pf w s).added = []
      ∧ (d.Gather pf w s).world = s1 := by
  rw [Gather_of_hostname_error pf w d s s1 e hh]
  refine ⟨⟨"", ?_⟩, by simp, rfl, rfl, rfl⟩
  simp

/-- C15 amended, in the world whose hostname lookup fails with "no hostname":
the error returned carries that error as its operand. -/
theorem Gather_hostname_failure_witness :
    hostlessWorld.Hostname 0 = (.error "no hostname", 0)
      ∧ (∃ rest, ((Dnsmasq.mk () "").Gather decimalParse hostlessWorld 0).status
          = .returned (some (.Errorf ("Failed to get hostname:" ++ rest)
              [.err "no hostname"])))
      ∧ ((Dnsmasq.mk () "").Gather decimalParse hostlessWorld 0).exchanged = []
      ∧ ((Dnsmasq.mk () "").Gather decimalParse hostlessWorld 0).added = [] :=
  ⟨rfl,
    (Gather_hostname_failure decimalParse hostlessWorld (Dnsmasq.mk () "") 0 0 "no hostname"
      rfl).1,
    (Gather_hostname_failure decimalParse hostlessWorld (Dnsmasq.mk () "") 0 0 "no hostname"
      rfl).2.2.1,
    (Gather_hostname_failure decimalParse hostlessWorld (Dnsmasq.mk () "") 0 0 "no hostname"
      rfl).2.2.2.1⟩

end dnsmasq
